import Mathlib

/-!
# Verification of the polymarket-insider-tracker trade pipeline

A shallow embedding, in Lean 4, of the parts of the
`polymarket_insider_tracker` Python code base that its specification makes
claims about:

* the WebSocket trade-event parser (`ingestor/models.py`),
* the stream serializer/deserializer (`ingestor/publisher.py`),
* the wallet freshness rule (`profiler/analyzer.py`),
* the funding-chain tracer (`profiler/funding.py`),
* the composite risk scorer and its dedup gate (`detector/scorer.py`),
* the alert dispatcher's circuit breaker (`alerter/dispatcher.py`).

Modelling conventions:

* Python `str` values are modelled as `List Char` (`PyStr`).
* Python `float` scores are modelled as exact rationals `ℚ`; every float
  literal in the source (0.40, 1.2, ...) is rendered as the rational the
  literal denotes.
* Python `decimal.Decimal` (finite values) is modelled as `Dec`, a sign /
  coefficient / exponent triple, together with faithful renderings of
  `str(Decimal)` and of the `Decimal` constructor's string parse.
* Timezone-aware `datetime` values are modelled as `PyDatetime` (civil
  fields plus a whole-second UTC offset), together with `isoformat` and
  the part of `fromisoformat` that covers the strings `isoformat` emits.
* Stateful code (the Redis dedup keyspace, the per-channel circuit-breaker
  table) is modelled with explicit state passing; fallible parsing returns
  `Option`.  Wall-clock side outputs (`datetime.now()`, generated UUIDs)
  are passed in as parameters or elided where no claim mentions them.
-/

/-- Python `str`, modelled as a list of characters. -/
abbrev PyStr := List Char

namespace PyNum

/-- The decimal digit character for `n % 10`. -/
def digitChar (n : Nat) : Char :=
  match n % 10 with
  | 0 => '0' | 1 => '1' | 2 => '2' | 3 => '3' | 4 => '4'
  | 5 => '5' | 6 => '6' | 7 => '7' | 8 => '8' | _ => '9'

/-- Fuel-driven digit printer (structural recursion so the kernel can
evaluate it); `natToChars` supplies enough fuel. -/
def natToCharsFuel : Nat → Nat → List Char
  | 0, _ => []
  | fuel + 1, n =>
    if n < 10 then [digitChar n]
    else natToCharsFuel fuel (n / 10) ++ [digitChar (n % 10)]

/-- Decimal digit string of a natural number, most significant digit first
(the rendering `str(n)` uses for a non-negative Python int). -/
def natToChars (n : Nat) : List Char := natToCharsFuel (n + 1) n

theorem natToCharsFuel_eq (f g n : Nat) (hf : n < f) (hg : n < g) :
    natToCharsFuel f n = natToCharsFuel g n := by
  induction f generalizing n g with
  | zero => omega
  | succ f ih =>
    cases g with
    | zero => omega
    | succ g =>
      simp only [natToCharsFuel]
      rcases Nat.lt_or_ge n 10 with h | h
      · rw [if_pos h, if_pos h]
      · have hdiv : n / 10 < n := Nat.div_lt_self (by omega) (by omega)
        rw [if_neg (by omega), if_neg (by omega),
          ih g (n / 10) (by omega) (by omega)]

/-- The recursion `natToChars` satisfies. -/
theorem natToChars_unfold (n : Nat) :
    natToChars n =
      if n < 10 then [digitChar n]
      else natToChars (n / 10) ++ [digitChar (n % 10)] := by
  show natToCharsFuel (n + 1) n = _
  rcases Nat.lt_or_ge n 10 with h | h
  · simp [natToCharsFuel, h]
  · have hdiv : n / 10 < n := Nat.div_lt_self (by omega) (by omega)
    simp only [natToCharsFuel, if_neg (by omega : ¬n < 10)]
    rw [natToCharsFuel_eq n (n / 10 + 1) (n / 10) (by omega) (by omega)]
    rfl

/-- Numeric value of a digit string (what Python's `int()` computes on a
string of decimal digits, and what the `Decimal` constructor computes for
the concatenated integer-and-fraction digits). -/
def digitsVal (s : List Char) : Nat :=
  s.foldl (fun a c => 10 * a + (c.toNat - 48)) 0

/-- Helper: `digitsVal` with an explicit accumulator. -/
theorem digitsVal_foldl_acc (s : List Char) (a : Nat) :
    s.foldl (fun a c => 10 * a + (c.toNat - 48)) a =
      a * 10 ^ s.length + digitsVal s := by
  induction s generalizing a with
  | nil => simp [digitsVal]
  | cons c t ih =>
    simp only [List.foldl_cons, digitsVal, List.length_cons]
    rw [ih, ih (10 * 0 + (c.toNat - 48))]
    ring

theorem digitsVal_append (s t : List Char) :
    digitsVal (s ++ t) = digitsVal s * 10 ^ t.length + digitsVal t := by
  simp only [digitsVal, List.foldl_append]
  rw [digitsVal_foldl_acc]
  rfl

theorem digitsVal_concat (s : List Char) (c : Char) :
    digitsVal (s ++ [c]) = 10 * digitsVal s + (c.toNat - 48) := by
  rw [digitsVal_append]
  simp [digitsVal]
  ring

theorem digitChar_isDigit (n : Nat) : (digitChar n).isDigit = true := by
  have h : n % 10 < 10 := Nat.mod_lt _ (by omega)
  unfold digitChar
  interval_cases hm : n % 10 <;> decide

theorem digitChar_toNat (n : Nat) : (digitChar n).toNat - 48 = n % 10 := by
  have h : n % 10 < 10 := Nat.mod_lt _ (by omega)
  unfold digitChar
  interval_cases hm : n % 10 <;> decide

theorem natToChars_ne_nil (n : Nat) : natToChars n ≠ [] := by
  rw [natToChars_unfold]
  split <;> simp

theorem natToChars_all_digits (n : Nat) :
    ∀ c ∈ natToChars n, c.isDigit = true := by
  induction n using Nat.strong_induction_on with
  | _ n ih =>
    rw [natToChars_unfold]
    rcases Nat.lt_or_ge n 10 with h | h
    · rw [if_pos h]
      intro c hc
      simp at hc
      subst hc
      exact digitChar_isDigit n
    · rw [if_neg (by omega)]
      intro c hc
      rw [List.mem_append] at hc
      rcases hc with hc | hc
      · exact ih (n / 10) (Nat.div_lt_self (by omega) (by omega)) c hc
      · simp at hc
        subst hc
        exact digitChar_isDigit (n % 10)

theorem digitsVal_natToChars (n : Nat) : digitsVal (natToChars n) = n := by
  induction n using Nat.strong_induction_on with
  | _ n ih =>
    rw [natToChars_unfold]
    rcases Nat.lt_or_ge n 10 with h | h
    · rw [if_pos h]
      have := digitChar_toNat n
      simp [digitsVal]
      omega
    · rw [if_neg (by omega), digitsVal_concat,
        ih (n / 10) (Nat.div_lt_self (by omega) (by omega)), digitChar_toNat]
      omega

/-- Length bound: a number below `10 ^ k` prints in at most `k` digits
(for `k ≥ 1`). -/
theorem natToChars_length_le (n k : Nat) (hk : 1 ≤ k) (h : n < 10 ^ k) :
    (natToChars n).length ≤ k := by
  induction k generalizing n with
  | zero => omega
  | succ k ih =>
    rw [natToChars_unfold]
    rcases Nat.lt_or_ge n 10 with h10 | h10
    · rw [if_pos h10]
      simp
    · rw [if_neg (by omega), List.length_append]
      simp only [List.length_cons, List.length_nil]
      have hk1 : 1 ≤ k := by
        by_contra hcon
        have hz : k = 0 := by omega
        subst hz
        simp at h
        omega
      have hdiv : n / 10 < 10 ^ k := by
        rw [pow_succ] at h
        omega
      have := ih (n / 10) hk1 hdiv
      omega

/-- Greedy span of decimal digits: the `\d*` step of the numeric regexes
used by `int()` and the `Decimal` constructor. -/
def takeDigits : List Char → List Char × List Char
  | [] => ([], [])
  | c :: r =>
    if c.isDigit then
      let p := takeDigits r
      (c :: p.1, p.2)
    else ([], c :: r)

/-- A digit span stops exactly at the first non-digit. -/
theorem takeDigits_spec (ds rest : List Char)
    (hds : ∀ c ∈ ds, c.isDigit = true)
    (hrest : rest = [] ∨ ∃ c t, rest = c :: t ∧ c.isDigit = false) :
    takeDigits (ds ++ rest) = (ds, rest) := by
  induction ds with
  | nil =>
    rcases hrest with h | ⟨c, t, hct, hc⟩
    · subst h
      rfl
    · subst hct
      simp [takeDigits, hc]
  | cons d t ih =>
    have hd : d.isDigit = true := hds d (by simp)
    simp only [List.cons_append, takeDigits, hd, if_true]
    have hih := ih (fun c hc => hds c (by simp [hc]))
    rw [show t.append rest = t ++ rest from rfl, hih]

/-- Plural form: `str(n)` followed by a non-digit (or nothing) spans as the
whole digit string of `n`. -/
theorem takeDigits_natToChars (n : Nat) (rest : List Char)
    (hrest : rest = [] ∨ ∃ c t, rest = c :: t ∧ c.isDigit = false) :
    takeDigits (natToChars n ++ rest) = (natToChars n, rest) :=
  takeDigits_spec _ _ (natToChars_all_digits n) hrest

theorem digitsVal_replicate_zero (k : Nat) (l : List Char) :
    digitsVal (List.replicate k '0' ++ l) = digitsVal l := by
  induction k with
  | zero => rfl
  | succ k ih =>
    simp only [List.replicate_succ, List.cons_append]
    show digitsVal (List.replicate k '0' ++ l) = _
    exact ih

/-- Leading optional sign, as in the regexes for `int()` and `Decimal()`:
consumes a single `-` (negative) or `+` and returns the rest. -/
def stripSign : PyStr → Bool × PyStr
  | [] => (false, [])
  | c :: r =>
    if c = '-' then (true, r)
    else if c = '+' then (false, r)
    else (false, c :: r)

theorem stripSign_minus (r : PyStr) : stripSign ('-' :: r) = (true, r) := rfl

theorem stripSign_plus (r : PyStr) : stripSign ('+' :: r) = (false, r) := rfl

theorem stripSign_digit (c : Char) (r : PyStr) (hc : c.isDigit = true) :
    stripSign (c :: r) = (false, c :: r) := by
  have h1 : ¬(c = '-') := by rintro rfl; simp [Char.isDigit] at hc
  have h2 : ¬(c = '+') := by rintro rfl; simp [Char.isDigit] at hc
  simp [stripSign, h1, h2]

/-- The optional `.\d*` fraction step of the `Decimal` constructor's
number grammar. -/
def dotStep : PyStr → List Char × PyStr
  | [] => ([], [])
  | c :: r => if c = '.' then takeDigits r else ([], c :: r)

theorem dotStep_dot (r : PyStr) : dotStep ('.' :: r) = takeDigits r := rfl

theorem dotStep_not_dot (c : Char) (r : PyStr) (hc : ¬(c = '.')) :
    dotStep (c :: r) = ([], c :: r) := by
  simp [dotStep, hc]

/-- Digit-headed strings are untouched by the sign step (with the written
sign prepended they strip back to the sign and the digits). -/
theorem stripSign_sign (neg : Bool) (c : Char) (t : PyStr) (hc : c.isDigit = true) :
    stripSign ((if neg then ['-'] else []) ++ (c :: t)) = (neg, c :: t) := by
  cases neg
  · simpa using stripSign_digit c t hc
  · rfl

/-- A closed digit string spans entirely. -/
theorem takeDigits_closed (ds : List Char) (hds : ∀ c ∈ ds, c.isDigit = true) :
    takeDigits ds = (ds, []) := by
  simpa using takeDigits_spec ds [] hds (Or.inl rfl)

end PyNum

/-- A finite Python `decimal.Decimal` value: sign, coefficient and exponent
(the `(sign, digits, exponent)` triple of the decimal arithmetic model;
special values NaN/Infinity never arise for trade prices and sizes and are
not modelled). -/
structure Dec where
  neg : Bool
  coeff : Nat
  exp : Int
  deriving DecidableEq

namespace Dec

open PyNum

/-- The rational number a `Dec` denotes. -/
def toRat (d : Dec) : ℚ :=
  (if d.neg then -1 else 1) * (d.coeff : ℚ) * (10 : ℚ) ^ d.exp

/-- Model of `str(Decimal)` — the to-scientific-string conversion of the decimal
arithmetic specification, as implemented by `Decimal.__str__` (non-
engineering form): no exponent when `exp <= 0` and the adjusted exponent
is at least -6, scientific notation with one leading digit otherwise. -/
def toStr (d : Dec) : PyStr :=
  let digits := natToChars d.coeff
  let n : Int := digits.length
  let leftdigits : Int := d.exp + n
  let dotplace : Int := if d.exp ≤ 0 ∧ -6 < leftdigits then leftdigits else 1
  let ifpart : List Char × List Char :=
    if dotplace ≤ 0 then
      (['0'], '.' :: (List.replicate (-dotplace).toNat '0' ++ digits))
    else if n ≤ dotplace then
      (digits ++ List.replicate (dotplace - n).toNat '0', [])
    else
      (digits.take dotplace.toNat, '.' :: digits.drop dotplace.toNat)
  let epart : List Char :=
    if leftdigits = dotplace then []
    else
      'E' :: (if 0 ≤ leftdigits - dotplace
        then '+' :: natToChars (leftdigits - dotplace).toNat
        else '-' :: natToChars (dotplace - leftdigits).toNat)
  (if d.neg then ['-'] else []) ++ ifpart.1 ++ ifpart.2 ++ epart

/-- The `Decimal(str)` constructor's parse of a finite numeric string:
optional sign, integer digits, optional `.` fraction digits, optional
`E`/`e` exponent; the stored coefficient is `int(intpart + fracpart)` and
the stored exponent is the written exponent minus the fraction length.
Returns `none` where the constructor raises `InvalidOperation`. -/
def parse (s : PyStr) : Option Dec :=
  let sp := stripSign s
  let ipPair := takeDigits sp.2
  let fpPair := dotStep ipPair.2
  if ipPair.1 = [] ∧ fpPair.1 = [] then none
  else
    match fpPair.2 with
    | [] => some ⟨sp.1, digitsVal (ipPair.1 ++ fpPair.1), -(fpPair.1.length : Int)⟩
    | ch :: r =>
      if ch = 'E' ∨ ch = 'e' then
        let esp := stripSign r
        let ed := takeDigits esp.2
        if ed.1 = [] ∨ ¬(ed.2 = []) then none
        else
          let ev : Int :=
            if esp.1 then -(digitsVal ed.1 : Int) else (digitsVal ed.1 : Int)
          some ⟨sp.1, digitsVal (ipPair.1 ++ fpPair.1), ev - (fpPair.1.length : Int)⟩
      else none

/-- Parsing a signed plain digit string. -/
theorem parse_plain (neg : Bool) (ip : List Char) (h1 : ip ≠ [])
    (h2 : ∀ c ∈ ip, c.isDigit = true) :
    parse ((if neg then ['-'] else []) ++ ip) = some ⟨neg, digitsVal ip, 0⟩ := by
  obtain ⟨c, t, rfl⟩ : ∃ c t, ip = c :: t := by
    cases ip with
    | nil => exact absurd rfl h1
    | cons c t => exact ⟨c, t, rfl⟩
  have hss := stripSign_sign neg c t (h2 c (by simp))
  have htd := takeDigits_closed (c :: t) h2
  simp [parse, hss, htd, dotStep]

/-- Parsing a signed digit string with a fraction part. -/
theorem parse_frac (neg : Bool) (ip fp : List Char) (h1 : ip ≠ [])
    (h2 : ∀ c ∈ ip, c.isDigit = true) (h3 : ∀ c ∈ fp, c.isDigit = true) :
    parse ((if neg then ['-'] else []) ++ ip ++ '.' :: fp) =
      some ⟨neg, digitsVal (ip ++ fp), -(fp.length : Int)⟩ := by
  obtain ⟨c, t, rfl⟩ : ∃ c t, ip = c :: t := by
    cases ip with
    | nil => exact absurd rfl h1
    | cons c t => exact ⟨c, t, rfl⟩
  have hss : stripSign ((if neg then ['-'] else []) ++ (c :: (t ++ '.' :: fp))) =
      (neg, c :: (t ++ '.' :: fp)) := by
    simpa using stripSign_sign neg c (t ++ '.' :: fp) (h2 c (by simp))
  have htd : takeDigits (c :: (t ++ '.' :: fp)) = (c :: t, '.' :: fp) := by
    simpa using takeDigits_spec (c :: t) ('.' :: fp) h2
      (Or.inr ⟨'.', fp, rfl, by decide⟩)
  have htf := takeDigits_closed fp h3
  simp [parse, hss, htd, dotStep_dot, htf]

/-- Parsing a signed digit string with scientific exponent, no fraction. -/
theorem parse_sci_nofrac (neg : Bool) (ip : List Char) (ev : Int) (h1 : ip ≠ [])
    (h2 : ∀ c ∈ ip, c.isDigit = true) :
    parse ((if neg then ['-'] else []) ++ ip ++
        'E' :: (if 0 ≤ ev then '+' :: natToChars ev.toNat
                else '-' :: natToChars (-ev).toNat)) =
      some ⟨neg, digitsVal ip, ev⟩ := by
  obtain ⟨c, t, rfl⟩ : ∃ c t, ip = c :: t := by
    cases ip with
    | nil => exact absurd rfl h1
    | cons c t => exact ⟨c, t, rfl⟩
  rcases le_or_lt 0 ev with hev | hev
  · rw [if_pos hev]
    have hss : stripSign ((if neg then ['-'] else []) ++
        (c :: (t ++ 'E' :: '+' :: natToChars ev.toNat))) =
        (neg, c :: (t ++ 'E' :: '+' :: natToChars ev.toNat)) := by
      simpa using stripSign_sign neg c (t ++ 'E' :: '+' :: natToChars ev.toNat)
        (h2 c (by simp))
    have htd : takeDigits (c :: (t ++ 'E' :: '+' :: natToChars ev.toNat)) =
        (c :: t, 'E' :: '+' :: natToChars ev.toNat) := by
      simpa using takeDigits_spec (c :: t) ('E' :: '+' :: natToChars ev.toNat) h2
        (Or.inr ⟨'E', _, rfl, by decide⟩)
    have hed := takeDigits_closed (natToChars ev.toNat) (natToChars_all_digits _)
    have hnn := natToChars_ne_nil ev.toNat
    have hcast : (ev.toNat : Int) = ev := Int.toNat_of_nonneg hev
    simp [parse, hss, htd, dotStep_not_dot, stripSign_plus, hed, hnn,
      digitsVal_natToChars, hcast]
  · rw [if_neg (show ¬(0 ≤ ev) by omega)]
    have hss : stripSign ((if neg then ['-'] else []) ++
        (c :: (t ++ 'E' :: '-' :: natToChars (-ev).toNat))) =
        (neg, c :: (t ++ 'E' :: '-' :: natToChars (-ev).toNat)) := by
      simpa using stripSign_sign neg c (t ++ 'E' :: '-' :: natToChars (-ev).toNat)
        (h2 c (by simp))
    have htd : takeDigits (c :: (t ++ 'E' :: '-' :: natToChars (-ev).toNat)) =
        (c :: t, 'E' :: '-' :: natToChars (-ev).toNat) := by
      simpa using takeDigits_spec (c :: t) ('E' :: '-' :: natToChars (-ev).toNat) h2
        (Or.inr ⟨'E', _, rfl, by decide⟩)
    have hed := takeDigits_closed (natToChars (-ev).toNat) (natToChars_all_digits _)
    have hnn := natToChars_ne_nil (-ev).toNat
    have hcast : ((-ev).toNat : Int) = -ev := Int.toNat_of_nonneg (by omega)
    simp [parse, hss, htd, dotStep_not_dot, stripSign_minus, hed, hnn,
      digitsVal_natToChars, hcast]

/-- Parsing a signed digit string with fraction and scientific exponent. -/
theorem parse_sci_frac (neg : Bool) (ip fp : List Char) (ev : Int) (h1 : ip ≠ [])
    (h2 : ∀ c ∈ ip, c.isDigit = true) (h3 : ∀ c ∈ fp, c.isDigit = true) :
    parse ((if neg then ['-'] else []) ++ ip ++ '.' :: fp ++
        'E' :: (if 0 ≤ ev then '+' :: natToChars ev.toNat
                else '-' :: natToChars (-ev).toNat)) =
      some ⟨neg, digitsVal (ip ++ fp), ev - (fp.length : Int)⟩ := by
  obtain ⟨c, t, rfl⟩ : ∃ c t, ip = c :: t := by
    cases ip with
    | nil => exact absurd rfl h1
    | cons c t => exact ⟨c, t, rfl⟩
  rcases le_or_lt 0 ev with hev | hev
  · rw [if_pos hev]
    have hss : stripSign ((if neg then ['-'] else []) ++
        (c :: (t ++ '.' :: (fp ++ 'E' :: '+' :: natToChars ev.toNat)))) =
        (neg, c :: (t ++ '.' :: (fp ++ 'E' :: '+' :: natToChars ev.toNat))) := by
      simpa using stripSign_sign neg c
        (t ++ '.' :: (fp ++ 'E' :: '+' :: natToChars ev.toNat)) (h2 c (by simp))
    have htd : takeDigits (c :: (t ++ '.' :: (fp ++ 'E' :: '+' :: natToChars ev.toNat))) =
        (c :: t, '.' :: (fp ++ 'E' :: '+' :: natToChars ev.toNat)) := by
      simpa using takeDigits_spec (c :: t)
        ('.' :: (fp ++ 'E' :: '+' :: natToChars ev.toNat)) h2
        (Or.inr ⟨'.', _, rfl, by decide⟩)
    have htf : takeDigits (fp ++ 'E' :: '+' :: natToChars ev.toNat) =
        (fp, 'E' :: '+' :: natToChars ev.toNat) :=
      takeDigits_spec fp ('E' :: '+' :: natToChars ev.toNat) h3
        (Or.inr ⟨'E', _, rfl, by decide⟩)
    have hed := takeDigits_closed (natToChars ev.toNat) (natToChars_all_digits _)
    have hnn := natToChars_ne_nil ev.toNat
    have hcast : (ev.toNat : Int) = ev := Int.toNat_of_nonneg hev
    simp [parse, hss, htd, dotStep_dot, htf, dotStep_not_dot, stripSign_plus,
      hed, hnn, digitsVal_natToChars, hcast]
  · rw [if_neg (show ¬(0 ≤ ev) by omega)]
    have hss : stripSign ((if neg then ['-'] else []) ++
        (c :: (t ++ '.' :: (fp ++ 'E' :: '-' :: natToChars (-ev).toNat)))) =
        (neg, c :: (t ++ '.' :: (fp ++ 'E' :: '-' :: natToChars (-ev).toNat))) := by
      simpa using stripSign_sign neg c
        (t ++ '.' :: (fp ++ 'E' :: '-' :: natToChars (-ev).toNat)) (h2 c (by simp))
    have htd : takeDigits (c :: (t ++ '.' :: (fp ++ 'E' :: '-' :: natToChars (-ev).toNat))) =
        (c :: t, '.' :: (fp ++ 'E' :: '-' :: natToChars (-ev).toNat)) := by
      simpa using takeDigits_spec (c :: t)
        ('.' :: (fp ++ 'E' :: '-' :: natToChars (-ev).toNat)) h2
        (Or.inr ⟨'.', _, rfl, by decide⟩)
    have htf : takeDigits (fp ++ 'E' :: '-' :: natToChars (-ev).toNat) =
        (fp, 'E' :: '-' :: natToChars (-ev).toNat) :=
      takeDigits_spec fp ('E' :: '-' :: natToChars (-ev).toNat) h3
        (Or.inr ⟨'E', _, rfl, by decide⟩)
    have hed := takeDigits_closed (natToChars (-ev).toNat) (natToChars_all_digits _)
    have hnn := natToChars_ne_nil (-ev).toNat
    have hcast : ((-ev).toNat : Int) = -ev := Int.toNat_of_nonneg (by omega)
    simp [parse, hss, htd, dotStep_dot, htf, dotStep_not_dot, stripSign_minus,
      hed, hnn, digitsVal_natToChars, hcast]

/-- Round trip for Python decimals: `Decimal(str(d)) == d`, with the exact
sign / coefficient / exponent triple preserved. -/
theorem parse_toStr (d : Dec) : parse (toStr d) = some d := by
  obtain ⟨neg, c, e⟩ := d
  have hne := natToChars_ne_nil c
  have hdig := natToChars_all_digits c
  have hval := digitsVal_natToChars c
  set ds := natToChars c with hds
  set L := ds.length with hL
  have hL1 : 1 ≤ L := by
    rw [hL]
    cases hh : ds with
    | nil => exact absurd hh hne
    | cons a b => simp [hh]
  by_cases hA : e ≤ 0 ∧ (-6 : Int) < e + (L : Int)
  · by_cases hA1 : e + (L : Int) ≤ 0
    · -- shape "0.0…0<digits>"
      have hstr : toStr ⟨neg, c, e⟩ =
          (if neg then ['-'] else []) ++ ['0'] ++
            '.' :: (List.replicate (-(e + (L : Int))).toNat '0' ++ ds) := by
        simp only [toStr, ← hds, ← hL]
        rw [if_pos hA, if_pos hA1, if_pos rfl]
        simp
      rw [hstr]
      rw [parse_frac neg ['0'] (List.replicate (-(e + (L : Int))).toNat '0' ++ ds)
        (by simp) (by intro x hx; simp at hx; subst hx; decide)
        (by
          intro x hx
          rw [List.mem_append] at hx
          rcases hx with hx | hx
          · rw [List.eq_of_mem_replicate hx]; decide
          · exact hdig x hx)]
      have hco : digitsVal (['0'] ++ (List.replicate (-(e + (L : Int))).toNat '0' ++ ds)) = c := by
        have : ('0' : Char) :: (List.replicate (-(e + (L : Int))).toNat '0' ++ ds) =
            List.replicate ((-(e + (L : Int))).toNat + 1) '0' ++ ds := by
          rw [List.replicate_succ]
          simp
        simp only [List.singleton_append, this, digitsVal_replicate_zero]
        exact hval
      have hzc : ((-(e + (L : Int))).toNat : Int) = -(e + (L : Int)) :=
        Int.toNat_of_nonneg (by omega)
      have hexp : -(((List.replicate (-(e + (L : Int))).toNat '0' ++ ds).length : Int)) = e := by
        rw [List.length_append, List.length_replicate, ← hL]
        push_cast [hzc]
        omega
      rw [hco, hexp]
    · by_cases he : e = 0
      · -- shape "<digits>"
        subst he
        have hstr : toStr ⟨neg, c, 0⟩ = (if neg then ['-'] else []) ++ ds := by
          simp only [toStr, ← hds, ← hL]
          rw [if_pos hA, if_neg hA1, if_pos (by omega : (L : Int) ≤ 0 + (L : Int)),
            if_pos rfl]
          have h0 : ((0 + (L : Int)) - (L : Int)).toNat = 0 := by omega
          rw [h0]
          simp
        rw [hstr, parse_plain neg ds hne hdig, hval]
      · -- shape "<digits>.<digits>" with the point inside the digit string
        have he' : e < 0 := by
          rcases lt_or_eq_of_le hA.1 with h | h
          · exact h
          · exact absurd h he
        have hdp0 : (0 : Int) < e + (L : Int) := by omega
        have hdpL : e + (L : Int) < (L : Int) := by omega
        have hstr : toStr ⟨neg, c, e⟩ =
            (if neg then ['-'] else []) ++ ds.take (e + (L : Int)).toNat ++
              '.' :: ds.drop (e + (L : Int)).toNat := by
          simp only [toStr, ← hds, ← hL]
          rw [if_pos hA, if_neg hA1,
            if_neg (show ¬((L : Int) ≤ e + (L : Int)) by omega), if_pos rfl]
          simp
        have hdpc : ((e + (L : Int)).toNat : Int) = e + (L : Int) :=
          Int.toNat_of_nonneg (by omega)
        have htne : ds.take (e + (L : Int)).toNat ≠ [] := by
          apply List.ne_nil_of_length_pos
          rw [List.length_take, ← hL]
          omega
        rw [hstr, parse_frac neg _ _ htne
          (fun x hx => hdig x (List.take_subset _ _ hx))
          (fun x hx => hdig x (List.drop_subset _ _ hx))]
        rw [List.take_append_drop, hval]
        have hexp : -(((ds.drop (e + (L : Int)).toNat).length : Int)) = e := by
          rw [List.length_drop, ← hL]
          omega
        rw [hexp]
  · -- scientific notation, exponent `e + L - 1`
    have hB : (0 : Int) < e ∨ e + (L : Int) ≤ -6 := by
      rcases not_and_or.mp hA with h | h
      · left; omega
      · right; omega
    have hne1 : ¬(e + (L : Int) = 1) := by
      rcases hB with h | h
      · intro hc
        omega
      · omega
    by_cases hL2 : L ≤ 1
    · -- single digit, shape "<digit>E±<exp>"
      have hLeq : L = 1 := by omega
      have hstr : toStr ⟨neg, c, e⟩ =
          (if neg then ['-'] else []) ++ ds ++
            'E' :: (if 0 ≤ e + (L : Int) - 1
              then '+' :: natToChars (e + (L : Int) - 1).toNat
              else '-' :: natToChars (-(e + (L : Int) - 1)).toNat) := by
        simp only [toStr, ← hds, ← hL]
        rw [if_neg hA, if_neg (show ¬((1 : Int) ≤ 0) by omega),
          if_pos (show (L : Int) ≤ 1 by omega), if_neg hne1]
        have h0 : ((1 : Int) - (L : Int)).toNat = 0 := by omega
        have hneg : (1 : Int) - (e + (L : Int)) = -(e + (L : Int) - 1) := by ring
        rw [h0, hneg]
        simp [sub_eq_add_neg, add_comm, add_left_comm]
      rw [hstr, parse_sci_nofrac neg ds (e + (L : Int) - 1) hne hdig, hval]
      have : e + (L : Int) - 1 = e := by omega
      rw [this]
    · -- several digits, shape "<digit>.<digits>E±<exp>"
      have hstr : toStr ⟨neg, c, e⟩ =
          (if neg then ['-'] else []) ++ ds.take 1 ++ '.' :: ds.drop 1 ++
            'E' :: (if 0 ≤ e + (L : Int) - 1
              then '+' :: natToChars (e + (L : Int) - 1).toNat
              else '-' :: natToChars (-(e + (L : Int) - 1)).toNat) := by
        simp only [toStr, ← hds, ← hL]
        rw [if_neg hA, if_neg (show ¬((1 : Int) ≤ 0) by omega),
          if_neg (show ¬((L : Int) ≤ 1) by omega), if_neg hne1]
        have hneg : (1 : Int) - (e + (L : Int)) = -(e + (L : Int) - 1) := by ring
        rw [hneg]
        have h1 : ((1 : Int)).toNat = 1 := rfl
        simp [sub_eq_add_neg, add_comm, add_left_comm]
      have htne : ds.take 1 ≠ [] := by
        apply List.ne_nil_of_length_pos
        rw [List.length_take, ← hL]
        omega
      rw [hstr, parse_sci_frac neg (ds.take 1) (ds.drop 1) (e + (L : Int) - 1) htne
        (fun x hx => hdig x (List.take_subset _ _ hx))
        (fun x hx => hdig x (List.drop_subset _ _ hx))]
      rw [List.take_append_drop, hval]
      have hexp : e + (L : Int) - 1 - (((ds.drop 1).length : Int)) = e := by
        rw [List.length_drop, ← hL]
        omega
      rw [hexp]

end Dec

namespace PyNum

/-- Model of `"%0wd" % n` for a non-negative int: the digit string left-padded with
zeros to width `w`. -/
def padNat (w n : Nat) : List Char :=
  List.replicate (w - (natToChars n).length) '0' ++ natToChars n

theorem padNat_length (w n : Nat) (hw : 1 ≤ w) (h : n < 10 ^ w) :
    (padNat w n).length = w := by
  have hle := natToChars_length_le n w hw h
  simp [padNat]
  omega

theorem padNat_all_digits (w n : Nat) :
    ∀ c ∈ padNat w n, c.isDigit = true := by
  intro c hc
  rw [padNat, List.mem_append] at hc
  rcases hc with hc | hc
  · rw [List.eq_of_mem_replicate hc]
    decide
  · exact natToChars_all_digits n c hc

theorem padNat_val (w n : Nat) : digitsVal (padNat w n) = n := by
  rw [padNat, digitsVal_replicate_zero, digitsVal_natToChars]

/-- Read exactly `w` decimal digits (a fixed-width field of the ISO-8601
layout emitted by `isoformat`). -/
def readFixedNat (w : Nat) (s : PyStr) : Option (Nat × PyStr) :=
  let pre := s.take w
  if pre.length = w ∧ pre.all Char.isDigit = true then some (digitsVal pre, s.drop w)
  else none

theorem readFixedNat_pad (w n : Nat) (hw : 1 ≤ w) (h : n < 10 ^ w) (rest : PyStr) :
    readFixedNat w (padNat w n ++ rest) = some (n, rest) := by
  have hlen := padNat_length w n hw h
  have htake : (padNat w n ++ rest).take w = padNat w n := by
    have := List.take_left (padNat w n) rest
    rwa [hlen] at this
  have hdrop : (padNat w n ++ rest).drop w = rest := by
    have := List.drop_left (padNat w n) rest
    rwa [hlen] at this
  have hall : (padNat w n).all Char.isDigit = true := by
    rw [List.all_eq_true]
    intro c hc
    exact padNat_all_digits w n c hc
  simp only [readFixedNat, htake, hdrop]
  rw [if_pos ⟨hlen, hall⟩, padNat_val]

theorem readFixedNat_pad_nil (w n : Nat) (hw : 1 ≤ w) (h : n < 10 ^ w) :
    readFixedNat w (padNat w n) = some (n, []) := by
  have := readFixedNat_pad w n hw h []
  simpa using this

/-- Consume one expected separator character. -/
def expectChar (c : Char) (s : PyStr) : Option PyStr :=
  match s with
  | x :: r => if x = c then some r else none
  | [] => none

theorem expectChar_cons (c : Char) (r : PyStr) : expectChar c (c :: r) = some r := by
  simp [expectChar]

/-- The optional `.ffffff` microsecond field of the ISO layout (absent when
the microsecond is zero). -/
def fracStep (s : PyStr) : Option (Nat × PyStr) :=
  match s with
  | c :: r => if c = '.' then readFixedNat 6 r else some (0, c :: r)
  | [] => some (0, [])

theorem fracStep_dot (r : PyStr) : fracStep ('.' :: r) = readFixedNat 6 r := rfl

theorem fracStep_not_dot (c : Char) (r : PyStr) (hc : ¬(c = '.')) :
    fracStep (c :: r) = some (0, c :: r) := by
  simp [fracStep, hc]

/-- The optional `:SS` field of a UTC-offset rendering (absent when the
offset is a whole number of minutes). -/
def colonSecStep (s : PyStr) : Option (Nat × PyStr) :=
  match s with
  | c :: r => if c = ':' then readFixedNat 2 r else some (0, c :: r)
  | [] => some (0, [])

theorem colonSecStep_colon (r : PyStr) : colonSecStep (':' :: r) = readFixedNat 2 r := rfl

theorem colonSecStep_nil : colonSecStep [] = some (0, []) := rfl

/-- The sign leading a UTC-offset rendering. -/
def offsetSign (s : PyStr) : Option (Bool × PyStr) :=
  match s with
  | c :: r =>
    if c = '+' then some (false, r)
    else if c = '-' then some (true, r)
    else none
  | [] => none

theorem offsetSign_plus (r : PyStr) : offsetSign ('+' :: r) = some (false, r) := rfl

theorem offsetSign_minus (r : PyStr) : offsetSign ('-' :: r) = some (true, r) := rfl

/-- Model of `datetime._format_offset`: sign, `HH:MM`, and `:SS` only when the
offset has a seconds component (whole-second offsets modelled). -/
def formatOffset (o : Int) : PyStr :=
  let a := o.natAbs
  (if o < 0 then '-' else '+') ::
    (padNat 2 (a / 3600) ++ ':' :: padNat 2 (a % 3600 / 60) ++
      (if a % 60 = 0 then [] else ':' :: padNat 2 (a % 60)))

/-- The offset part of `fromisoformat`: sign, hours, minutes, optional
seconds, yielding the offset in seconds. -/
def readOffset (s : PyStr) : Option (Int × PyStr) := do
  let (negOff, s) ← offsetSign s
  let (oh, s) ← readFixedNat 2 s
  let s ← expectChar ':' s
  let (om, s) ← readFixedNat 2 s
  let (os, s) ← colonSecStep s
  let total : Int := ((oh * 3600 + om * 60 + os : Nat) : Int)
  some ((if negOff then -total else total), s)

theorem readOffset_formatOffset (o : Int) (ho : -86400 < o ∧ o < 86400) :
    readOffset (formatOffset o) = some (o, []) := by
  have ha : o.natAbs < 86400 := by omega
  have hfin : ∀ b : Bool, (b = decide (o < 0)) →
      ∀ os : Nat, (os = o.natAbs % 60) →
      (if b then -((o.natAbs / 3600 * 3600 + o.natAbs % 3600 / 60 * 60 + os : Nat) : Int)
       else ((o.natAbs / 3600 * 3600 + o.natAbs % 3600 / 60 * 60 + os : Nat) : Int)) = o := by
    intro b hb os hos
    subst hb hos
    have hsum : o.natAbs / 3600 * 3600 + o.natAbs % 3600 / 60 * 60 + o.natAbs % 60 =
        o.natAbs := by omega
    rcases lt_or_ge o 0 with hneg | hpos
    · rw [if_pos (by simpa using hneg), hsum]
      omega
    · rw [if_neg (by simpa using not_lt.mpr hpos), hsum]
      omega
  by_cases hz : o.natAbs % 60 = 0
  · rcases lt_or_ge o 0 with hneg | hpos
    · simp only [formatOffset, if_pos hneg, if_pos hz, List.append_nil,
        readOffset, Option.bind_eq_bind]
      rw [offsetSign_minus]
      simp only [Option.some_bind]
      rw [readFixedNat_pad 2 (o.natAbs / 3600) (by omega) (by omega)
        (':' :: padNat 2 (o.natAbs % 3600 / 60))]
      simp only [Option.some_bind]
      rw [expectChar_cons]
      simp only [Option.some_bind]
      rw [readFixedNat_pad_nil 2 (o.natAbs % 3600 / 60) (by omega) (by omega)]
      simp only [Option.some_bind, colonSecStep_nil]
      simp only [Option.some_bind, Option.some.injEq, Prod.mk.injEq]
      refine ⟨?_, trivial⟩
      have := hfin true (by simp [hneg]) 0 (by omega)
      simpa using this
    · simp only [formatOffset, if_neg (show ¬o < 0 by omega), if_pos hz,
        List.append_nil, readOffset, Option.bind_eq_bind]
      rw [offsetSign_plus]
      simp only [Option.some_bind]
      rw [readFixedNat_pad 2 (o.natAbs / 3600) (by omega) (by omega)
        (':' :: padNat 2 (o.natAbs % 3600 / 60))]
      simp only [Option.some_bind]
      rw [expectChar_cons]
      simp only [Option.some_bind]
      rw [readFixedNat_pad_nil 2 (o.natAbs % 3600 / 60) (by omega) (by omega)]
      simp only [Option.some_bind, colonSecStep_nil]
      simp only [Option.some_bind, Option.some.injEq, Prod.mk.injEq]
      refine ⟨?_, trivial⟩
      have := hfin false (by simp; omega) 0 (by omega)
      simpa using this
  · rcases lt_or_ge o 0 with hneg | hpos
    · simp only [formatOffset, if_pos hneg, if_neg hz, List.append_assoc,
        List.cons_append, readOffset, Option.bind_eq_bind]
      rw [offsetSign_minus]
      simp only [Option.some_bind]
      rw [readFixedNat_pad 2 (o.natAbs / 3600) (by omega) (by omega)
        (':' :: (padNat 2 (o.natAbs % 3600 / 60) ++ ':' :: padNat 2 (o.natAbs % 60)))]
      simp only [Option.some_bind]
      rw [expectChar_cons]
      simp only [Option.some_bind]
      rw [readFixedNat_pad 2 (o.natAbs % 3600 / 60) (by omega) (by omega)
        (':' :: padNat 2 (o.natAbs % 60))]
      simp only [Option.some_bind, colonSecStep_colon]
      rw [readFixedNat_pad_nil 2 (o.natAbs % 60) (by omega) (by omega)]
      simp only [Option.some_bind, Option.some.injEq, Prod.mk.injEq]
      refine ⟨?_, trivial⟩
      have := hfin true (by simp [hneg]) (o.natAbs % 60) rfl
      simpa using this
    · simp only [formatOffset, if_neg (show ¬o < 0 by omega), if_neg hz,
        List.append_assoc, List.cons_append, readOffset, Option.bind_eq_bind]
      rw [offsetSign_plus]
      simp only [Option.some_bind]
      rw [readFixedNat_pad 2 (o.natAbs / 3600) (by omega) (by omega)
        (':' :: (padNat 2 (o.natAbs % 3600 / 60) ++ ':' :: padNat 2 (o.natAbs % 60)))]
      simp only [Option.some_bind]
      rw [expectChar_cons]
      simp only [Option.some_bind]
      rw [readFixedNat_pad 2 (o.natAbs % 3600 / 60) (by omega) (by omega)
        (':' :: padNat 2 (o.natAbs % 60))]
      simp only [Option.some_bind, colonSecStep_colon]
      rw [readFixedNat_pad_nil 2 (o.natAbs % 60) (by omega) (by omega)]
      simp only [Option.some_bind, Option.some.injEq, Prod.mk.injEq]
      refine ⟨?_, trivial⟩
      have := hfin false (by simp; omega) (o.natAbs % 60) rfl
      simpa using this

end PyNum

/-- A timezone-aware Python `datetime`: civil fields plus a UTC offset in
whole seconds (`timezone(timedelta(seconds=offsetSeconds))`).  Naive
datetimes and sub-second offsets are outside the model; the claims only
concern timezone-aware trade timestamps. -/
structure PyDatetime where
  year : Nat
  month : Nat
  day : Nat
  hour : Nat
  minute : Nat
  second : Nat
  microsecond : Nat
  offsetSeconds : Int
  deriving DecidableEq

namespace PyDatetime

open PyNum

/-- The constructor constraints `datetime.__new__` enforces (the day bound
is relaxed to 31 independent of the month; `timezone` requires the offset
strictly between -24h and +24h). -/
def valid (t : PyDatetime) : Prop :=
  1 ≤ t.year ∧ t.year ≤ 9999 ∧ 1 ≤ t.month ∧ t.month ≤ 12 ∧
  1 ≤ t.day ∧ t.day ≤ 31 ∧ t.hour ≤ 23 ∧ t.minute ≤ 59 ∧ t.second ≤ 59 ∧
  t.microsecond ≤ 999999 ∧ -86400 < t.offsetSeconds ∧ t.offsetSeconds < 86400

instance (t : PyDatetime) : Decidable t.valid := by
  unfold valid
  infer_instance

/-- Model of `datetime.isoformat()` (default separator `'T'`, timespec `auto`):
`YYYY-MM-DDTHH:MM:SS[.ffffff]±HH:MM[:SS]`, the microsecond field emitted
only when non-zero and the offset second field only when non-zero. -/
def isoformat (t : PyDatetime) : PyStr :=
  padNat 4 t.year ++ '-' :: padNat 2 t.month ++ '-' :: padNat 2 t.day ++
    'T' :: padNat 2 t.hour ++ ':' :: padNat 2 t.minute ++ ':' :: padNat 2 t.second ++
    (if t.microsecond = 0 then [] else '.' :: padNat 6 t.microsecond) ++
    formatOffset t.offsetSeconds

/-- Model of `datetime.fromisoformat` restricted to the layouts `isoformat` emits
(fixed-width date and time fields, optional 6-digit fraction, mandatory
offset since only aware datetimes are modelled); `none` where the parser
raises `ValueError`. -/
def fromisoformat (s : PyStr) : Option PyDatetime := do
  let (y, s) ← readFixedNat 4 s
  let s ← expectChar '-' s
  let (mo, s) ← readFixedNat 2 s
  let s ← expectChar '-' s
  let (dy, s) ← readFixedNat 2 s
  let s ← expectChar 'T' s
  let (hr, s) ← readFixedNat 2 s
  let s ← expectChar ':' s
  let (mi, s) ← readFixedNat 2 s
  let s ← expectChar ':' s
  let (sec, s) ← readFixedNat 2 s
  let (us, s) ← fracStep s
  let (off, s) ← readOffset s
  if s = [] then some ⟨y, mo, dy, hr, mi, sec, us, off⟩ else none

set_option maxHeartbeats 2000000 in
/-- Round trip for aware datetimes: parsing the ISO rendering recovers
every civil field and the offset exactly. -/
theorem fromisoformat_isoformat (t : PyDatetime) (h : t.valid) :
    fromisoformat (isoformat t) = some t := by
  obtain ⟨y, mo, dy, hr, mi, sec, us, o⟩ := t
  obtain ⟨h1, h2, h3, h4, h5, h6, h7, h8, h9, h10, h11, h12⟩ := h
  simp only at h1 h2 h3 h4 h5 h6 h7 h8 h9 h10 h11 h12
  have hoff := readOffset_formatOffset o ⟨h11, h12⟩
  have hfrac0 : fracStep (formatOffset o) = some (0, formatOffset o) := by
    rcases lt_or_ge o 0 with hn | hp
    · rw [formatOffset]
      simp only [if_pos hn]
      exact fracStep_not_dot '-' _ (by decide)
    · rw [formatOffset]
      simp only [if_neg (show ¬o < 0 by omega)]
      exact fracStep_not_dot '+' _ (by decide)
  by_cases hus : us = 0
  · subst hus
    have hstr : isoformat ⟨y, mo, dy, hr, mi, sec, 0, o⟩ =
        padNat 4 y ++ '-' :: (padNat 2 mo ++ '-' :: (padNat 2 dy ++
          'T' :: (padNat 2 hr ++ ':' :: (padNat 2 mi ++ ':' :: (padNat 2 sec ++
          formatOffset o))))) := by
      simp [isoformat, List.append_assoc]
    rw [hstr]
    simp only [fromisoformat, Option.bind_eq_bind]
    rw [readFixedNat_pad 4 y (by omega) (by omega)]
    simp only [Option.some_bind]
    rw [expectChar_cons]
    simp only [Option.some_bind]
    rw [readFixedNat_pad 2 mo (by omega) (by omega)]
    simp only [Option.some_bind]
    rw [expectChar_cons]
    simp only [Option.some_bind]
    rw [readFixedNat_pad 2 dy (by omega) (by omega)]
    simp only [Option.some_bind]
    rw [expectChar_cons]
    simp only [Option.some_bind]
    rw [readFixedNat_pad 2 hr (by omega) (by omega)]
    simp only [Option.some_bind]
    rw [expectChar_cons]
    simp only [Option.some_bind]
    rw [readFixedNat_pad 2 mi (by omega) (by omega)]
    simp only [Option.some_bind]
    rw [expectChar_cons]
    simp only [Option.some_bind]
    rw [readFixedNat_pad 2 sec (by omega) (by omega)]
    simp only [Option.some_bind]
    rw [hfrac0]
    simp only [Option.some_bind]
    rw [hoff]
    simp only [Option.some_bind]
    simp
  · have hstr : isoformat ⟨y, mo, dy, hr, mi, sec, us, o⟩ =
        padNat 4 y ++ '-' :: (padNat 2 mo ++ '-' :: (padNat 2 dy ++
          'T' :: (padNat 2 hr ++ ':' :: (padNat 2 mi ++ ':' :: (padNat 2 sec ++
          '.' :: (padNat 6 us ++ formatOffset o)))))) := by
      simp [isoformat, hus, List.append_assoc]
    rw [hstr]
    simp only [fromisoformat, Option.bind_eq_bind]
    rw [readFixedNat_pad 4 y (by omega) (by omega)]
    simp only [Option.some_bind]
    rw [expectChar_cons]
    simp only [Option.some_bind]
    rw [readFixedNat_pad 2 mo (by omega) (by omega)]
    simp only [Option.some_bind]
    rw [expectChar_cons]
    simp only [Option.some_bind]
    rw [readFixedNat_pad 2 dy (by omega) (by omega)]
    simp only [Option.some_bind]
    rw [expectChar_cons]
    simp only [Option.some_bind]
    rw [readFixedNat_pad 2 hr (by omega) (by omega)]
    simp only [Option.some_bind]
    rw [expectChar_cons]
    simp only [Option.some_bind]
    rw [readFixedNat_pad 2 mi (by omega) (by omega)]
    simp only [Option.some_bind]
    rw [expectChar_cons]
    simp only [Option.some_bind]
    rw [readFixedNat_pad 2 sec (by omega) (by omega)]
    simp only [Option.some_bind]
    rw [fracStep_dot, readFixedNat_pad 6 us (by omega) (by omega)]
    simp only [Option.some_bind]
    rw [hoff]
    simp only [Option.some_bind]
    simp

end PyDatetime

/-- The trade side, `Literal["BUY", "SELL"]` in the source. -/
inductive Side
  | buy
  | sell
  deriving DecidableEq

/-- The literal string a side is stored and serialized as. -/
def Side.str : Side → PyStr
  | .buy => ['B', 'U', 'Y']
  | .sell => ['S', 'E', 'L', 'L']

/-- Model of `TradeEvent` (`ingestor/models.py`): the atomic trade record from the
Polymarket WebSocket feed.  Prices and sizes are exact decimals; only
timezone-aware timestamps occur (the parser always attaches UTC). -/
structure TradeEvent where
  market_id : PyStr
  trade_id : PyStr
  wallet_address : PyStr
  side : Side
  outcome : PyStr
  outcome_index : Int
  price : Dec
  size : Dec
  timestamp : PyDatetime
  asset_id : PyStr
  market_slug : PyStr
  event_slug : PyStr
  event_title : PyStr
  trader_name : PyStr
  trader_pseudonym : PyStr
  deriving DecidableEq

namespace PyNum

/-- Model of `str(i)` for a Python int. -/
def intToChars (i : Int) : PyStr :=
  if i < 0 then '-' :: natToChars (-i).toNat else natToChars i.toNat

/-- Model of `int(s)` on a clean numeric string: optional sign then digits
(whitespace and underscore tolerance never arise on the serializer's
output); `none` where `int()` raises `ValueError`. -/
def parseInt (s : PyStr) : Option Int :=
  let sp := stripSign s
  let dp := takeDigits sp.2
  if dp.1 = [] ∨ ¬(dp.2 = []) then none
  else some (if sp.1 then -(digitsVal dp.1 : Int) else (digitsVal dp.1 : Int))

theorem parseInt_intToChars (i : Int) : parseInt (intToChars i) = some i := by
  rcases lt_or_ge i 0 with hneg | hpos
  · have htd := takeDigits_closed (natToChars (-i).toNat) (natToChars_all_digits _)
    have hnn := natToChars_ne_nil (-i).toNat
    have hcast : ((-i).toNat : Int) = -i := Int.toNat_of_nonneg (by omega)
    simp [intToChars, hneg, parseInt, stripSign_minus, htd, hnn,
      digitsVal_natToChars, hcast]
  · obtain ⟨c, t, hct⟩ : ∃ c t, natToChars i.toNat = c :: t := by
      cases hh : natToChars i.toNat with
      | nil => exact absurd hh (natToChars_ne_nil _)
      | cons c t => exact ⟨c, t, rfl⟩
    have hc : c.isDigit = true := by
      have := natToChars_all_digits i.toNat c
      rw [hct] at this
      exact this (by simp)
    have hss : stripSign (natToChars i.toNat) = (false, natToChars i.toNat) := by
      rw [hct]
      exact stripSign_digit c t hc
    have htd := takeDigits_closed (natToChars i.toNat) (natToChars_all_digits _)
    have hnn := natToChars_ne_nil i.toNat
    have hcast : (i.toNat : Int) = i := Int.toNat_of_nonneg (by omega)
    simp [intToChars, show ¬i < 0 by omega, parseInt, hss, htd, hnn,
      digitsVal_natToChars, hcast]

end PyNum

/-- The string-valued record `_serialize_trade_event` produces for the
Redis stream: every field stringified to preserve precision. -/
structure SerializedTrade where
  market_id : PyStr
  trade_id : PyStr
  wallet_address : PyStr
  side : PyStr
  outcome : PyStr
  outcome_index : PyStr
  price : PyStr
  size : PyStr
  timestamp : PyStr
  asset_id : PyStr
  market_slug : PyStr
  event_slug : PyStr
  event_title : PyStr
  trader_name : PyStr
  trader_pseudonym : PyStr

/-- Model of `_serialize_trade_event` (`ingestor/publisher.py`). -/
def serializeTradeEvent (e : TradeEvent) : SerializedTrade where
  market_id := e.market_id
  trade_id := e.trade_id
  wallet_address := e.wallet_address
  side := e.side.str
  outcome := e.outcome
  outcome_index := PyNum.intToChars e.outcome_index
  price := e.price.toStr
  size := e.size.toStr
  timestamp := e.timestamp.isoformat
  asset_id := e.asset_id
  market_slug := e.market_slug
  event_slug := e.event_slug
  event_title := e.event_title
  trader_name := e.trader_name
  trader_pseudonym := e.trader_pseudonym

/-- Model of `_deserialize_trade_event` (`ingestor/publisher.py`): timestamps that
fail to parse fall back to `datetime.now(UTC)` (passed in as `now`); the
side is BUY when the uppercased field is exactly `"BUY"` and SELL
otherwise; `int()` and `Decimal()` conversion failures propagate as
exceptions (`none`). -/
def deserializeTradeEvent (now : PyDatetime) (w : SerializedTrade) : Option TradeEvent := do
  let timestamp := (PyDatetime.fromisoformat w.timestamp).getD now
  let side : Side := if w.side.map Char.toUpper = ['B', 'U', 'Y'] then .buy else .sell
  let outcome_index ← PyNum.parseInt w.outcome_index
  let price ← Dec.parse w.price
  let size ← Dec.parse w.size
  some { market_id := w.market_id, trade_id := w.trade_id,
         wallet_address := w.wallet_address, side := side, outcome := w.outcome,
         outcome_index := outcome_index, price := price, size := size,
         timestamp := timestamp, asset_id := w.asset_id,
         market_slug := w.market_slug, event_slug := w.event_slug,
         event_title := w.event_title, trader_name := w.trader_name,
         trader_pseudonym := w.trader_pseudonym }





/-- Model of `TradeEvent.from_websocket_message` (`ingestor/models.py`): the payload
of a WebSocket `activity/trades` message.  String fields carry the
already-`str()`-ed values (missing keys arrive as their defaults); `price`
and `size` carry the value `Decimal(str(payload[...]))` denotes;
`timestamp` is `some n` exactly when the raw field is a Python int.
The `datetime.fromtimestamp`/`datetime.now` library calls are abstracted
as the `fromtimestamp`/`now` parameters of the parser. -/
structure WsTradePayload where
  conditionId : PyStr
  transactionHash : PyStr
  proxyWallet : PyStr
  side : PyStr
  outcome : PyStr
  outcomeIndex : Int
  price : Dec
  size : Dec
  timestamp : Option Int
  asset : PyStr
  slug : PyStr
  eventSlug : PyStr
  title : PyStr
  name : PyStr
  pseudonym : PyStr

/-- Model of `TradeEvent.from_websocket_message`: builds a `TradeEvent` from the
payload; the side is normalized to upper case and anything other than
`"BUY"` becomes SELL; a non-int timestamp falls back to `now`. -/
def fromWebsocketMessage (fromtimestamp : Int → PyDatetime) (now : PyDatetime)
    (p : WsTradePayload) : TradeEvent where
  market_id := p.conditionId
  trade_id := p.transactionHash
  wallet_address := p.proxyWallet
  side := if p.side.map Char.toUpper = ['B', 'U', 'Y'] then .buy else .sell
  outcome := p.outcome
  outcome_index := p.outcomeIndex
  price := p.price
  size := p.size
  timestamp :=
    match p.timestamp with
    | some n => fromtimestamp n
    | none => now
  asset_id := p.asset
  market_slug := p.slug
  event_slug := p.eventSlug
  event_title := p.title
  trader_name := p.name
  trader_pseudonym := p.pseudonym


/-! ## Risk scorer (`detector/scorer.py`) -/

/-- Model of `FreshWalletSignal` (`detector/models.py`), restricted to the fields
the scorer and the claims consume; `confidence ∈ [0,1]` is a float score,
modelled as a rational. -/
structure FreshWalletSignal where
  confidence : ℚ

/-- Model of `SizeAnomalySignal` (`detector/models.py`), restricted likewise. -/
structure SizeAnomalySignal where
  volume_impact : ℚ
  book_impact : ℚ
  is_niche_market : Bool
  confidence : ℚ

/-- Model of `SignalBundle` (`detector/scorer.py`): signals collected for one
trade. -/
structure SignalBundle where
  trade_event : TradeEvent
  fresh_wallet_signal : Option FreshWalletSignal := none
  size_anomaly_signal : Option SizeAnomalySignal := none

/-- Property `SignalBundle.wallet_address`. -/
def SignalBundle.wallet_address (b : SignalBundle) : PyStr :=
  b.trade_event.wallet_address

/-- Property `SignalBundle.market_id`. -/
def SignalBundle.market_id (b : SignalBundle) : PyStr :=
  b.trade_event.market_id

/-- Model of `DEFAULT_ALERT_THRESHOLD = 0.6`. -/
def DEFAULT_ALERT_THRESHOLD : ℚ := 6/10

/-- Model of `DEFAULT_DEDUP_WINDOW_SECONDS = 3600`. -/
def DEFAULT_DEDUP_WINDOW_SECONDS : Nat := 3600

/-- Model of `DEFAULT_WEIGHTS` as the lookup `weights.get(kind, 0.0)` sees it:
0.40 / 0.35 / 0.25 for the three known kinds and the 0.0 default
otherwise. -/
def DEFAULT_WEIGHTS : String → ℚ := fun kind =>
  if kind = "fresh_wallet" then 40/100
  else if kind = "size_anomaly" then 35/100
  else if kind = "niche_market" then 25/100
  else 0

/-- Model of `MULTI_SIGNAL_BONUS_2 = 1.2`. -/
def MULTI_SIGNAL_BONUS_2 : ℚ := 12/10

/-- Model of `MULTI_SIGNAL_BONUS_3 = 1.3`. -/
def MULTI_SIGNAL_BONUS_3 : ℚ := 13/10

/-- Model of `RiskAssessment` (`detector/models.py`); the generated
`assessment_id` (a UUID) and the wall-clock `timestamp` are side outputs
no claim mentions and are not modelled. -/
structure RiskAssessment where
  trade_event : TradeEvent
  wallet_address : PyStr
  market_id : PyStr
  fresh_wallet_signal : Option FreshWalletSignal
  size_anomaly_signal : Option SizeAnomalySignal
  signals_triggered : Nat
  weighted_score : ℚ
  should_alert : Bool

/-- The Redis keyspace the scorer's dedup uses, as the set of keys
currently present (true = key exists, i.e. the wallet/market pair was
alerted within the live dedup window). -/
def DedupStore := PyStr → Bool

/-- The dedup key `f"{prefix}{wallet}:{market}"`; the constant key-space
prefix is dropped (it is shared by every key and affects nothing). -/
def dedupKey (wallet_address market_id : PyStr) : PyStr :=
  wallet_address ++ ':' :: market_id

/-- Model of `RiskScorer`'s configuration (`detector/scorer.py`); the Redis client
is replaced by explicit `DedupStore` state passing. -/
structure RiskScorer where
  weights : String → ℚ := DEFAULT_WEIGHTS
  alert_threshold : ℚ := DEFAULT_ALERT_THRESHOLD
  dedup_window : Nat := DEFAULT_DEDUP_WINDOW_SECONDS

/-- Model of `RiskScorer._check_and_set_dedup`: `SET key NX EX window` — returns
whether the key already existed (duplicate) and the keyspace with the key
present.  Key expiry cannot occur within the dedup window, which is the
horizon of every claim about this store. -/
def checkAndSetDedup (store : DedupStore) (wallet_address market_id : PyStr) :
    Bool × DedupStore :=
  let key := dedupKey wallet_address market_id
  let was_set := !(store key)
  (!was_set, fun k => if k = key then true else store k)

/-- Model of `RiskScorer.calculate_weighted_score`: per-signal weights, an
additive niche-market bonus on the size-anomaly confidence, the
multi-signal multiplier, and the 1.0 cap. -/
def RiskScorer.calculateWeightedScore (sc : RiskScorer) (bundle : SignalBundle) :
    ℚ × Nat :=
  let score : ℚ := 0
  let signals_triggered : Nat := 0
  let p1 : ℚ × Nat :=
    match bundle.fresh_wallet_signal with
    | some s => (score + s.confidence * sc.weights "fresh_wallet", signals_triggered + 1)
    | none => (score, signals_triggered)
  let p2 : ℚ × Nat :=
    match bundle.size_anomaly_signal with
    | some s =>
      let score2 := p1.1 + s.confidence * sc.weights "size_anomaly"
      let score3 :=
        if s.is_niche_market then score2 + s.confidence * sc.weights "niche_market"
        else score2
      (score3, p1.2 + 1)
    | none => p1
  let score4 :=
    if p2.2 ≥ 3 then p2.1 * MULTI_SIGNAL_BONUS_3
    else if p2.2 ≥ 2 then p2.1 * MULTI_SIGNAL_BONUS_2
    else p2.1
  (min score4 1, p2.2)

/-- Model of `RiskScorer.assess`: weighted score, threshold test, dedup check only
when the threshold is met, and the assembled `RiskAssessment`; returns the
assessment together with the dedup keyspace after the call. -/
def RiskScorer.assess (sc : RiskScorer) (store : DedupStore) (bundle : SignalBundle) :
    RiskAssessment × DedupStore :=
  let ws := sc.calculateWeightedScore bundle
  let meets_threshold := decide (ws.1 ≥ sc.alert_threshold)
  let dd :=
    if meets_threshold then
      checkAndSetDedup store bundle.wallet_address bundle.market_id
    else (false, store)
  let should_alert := meets_threshold && !dd.1
  ({ trade_event := bundle.trade_event,
     wallet_address := bundle.wallet_address,
     market_id := bundle.market_id,
     fresh_wallet_signal := bundle.fresh_wallet_signal,
     size_anomaly_signal := bundle.size_anomaly_signal,
     signals_triggered := ws.2,
     weighted_score := ws.1,
     should_alert := should_alert }, dd.2)

/-! ## Wallet freshness (`profiler/analyzer.py`) -/

/-- Model of `DEFAULT_FRESH_THRESHOLD = 5`. -/
def DEFAULT_FRESH_THRESHOLD : Nat := 5

/-- Model of `WalletAnalyzer._is_wallet_fresh`: below-threshold nonce, and the age
(when known) not above 48 hours.  `age_hours` is a float, modelled as a
rational; `none` is an unknown age. -/
def isWalletFresh (fresh_threshold : Nat) (nonce : Nat) (age_hours : Option ℚ) : Bool :=
  if nonce ≥ fresh_threshold then false
  else
    !(match age_hours with
      | some a => decide (a > 48)
      | none => false)

/-! ## Funding tracer (`profiler/funding.py`, `profiler/entities.py`) -/

/-- Model of `EntityType` (`profiler/entity_data.py`). -/
inductive EntityType
  | cex_binance | cex_coinbase | cex_kraken | cex_okx | cex_kucoin
  | cex_bybit | cex_crypto_com | cex_other
  | bridge_polygon | bridge_multichain | bridge_stargate | bridge_hop | bridge_other
  | dex_uniswap | dex_sushiswap | dex_quickswap | dex_1inch | dex_other
  | token_usdc | token_usdt | token_weth | token_wmatic
  | defi_aave | defi_compound | defi_other
  | contract | unknown
  deriving DecidableEq, BEq

/-- The enum's `.value` strings. -/
def EntityType.value : EntityType → String
  | .cex_binance => "cex_binance" | .cex_coinbase => "cex_coinbase"
  | .cex_kraken => "cex_kraken" | .cex_okx => "cex_okx"
  | .cex_kucoin => "cex_kucoin" | .cex_bybit => "cex_bybit"
  | .cex_crypto_com => "cex_crypto_com" | .cex_other => "cex_other"
  | .bridge_polygon => "bridge_polygon" | .bridge_multichain => "bridge_multichain"
  | .bridge_stargate => "bridge_stargate" | .bridge_hop => "bridge_hop"
  | .bridge_other => "bridge_other"
  | .dex_uniswap => "dex_uniswap" | .dex_sushiswap => "dex_sushiswap"
  | .dex_quickswap => "dex_quickswap" | .dex_1inch => "dex_1inch"
  | .dex_other => "dex_other"
  | .token_usdc => "token_usdc" | .token_usdt => "token_usdt"
  | .token_weth => "token_weth" | .token_wmatic => "token_wmatic"
  | .defi_aave => "defi_aave" | .defi_compound => "defi_compound"
  | .defi_other => "defi_other"
  | .contract => "contract" | .unknown => "unknown"

/-- Model of `EntityRegistry.TERMINAL_ENTITY_TYPES`: the CEX and bridge kinds. -/
def TERMINAL_ENTITY_TYPES : List EntityType :=
  [.cex_binance, .cex_coinbase, .cex_kraken, .cex_okx, .cex_kucoin,
   .cex_bybit, .cex_crypto_com, .cex_other,
   .bridge_polygon, .bridge_multichain, .bridge_stargate, .bridge_hop,
   .bridge_other]

/-- Model of `EntityRegistry` (`profiler/entities.py`): the address-to-entity table
(default table plus caller overrides), abstracted as a lookup function. -/
structure EntityRegistry where
  entities : PyStr → Option EntityType

/-- Model of `EntityRegistry.classify`: table lookup on the lowercased address,
`UNKNOWN` when absent. -/
def EntityRegistry.classify (r : EntityRegistry) (address : PyStr) : EntityType :=
  (r.entities (address.map Char.toLower)).getD .unknown

/-- Model of `EntityRegistry.is_terminal`: classification among the terminal
kinds. -/
def EntityRegistry.is_terminal (r : EntityRegistry) (address : PyStr) : Bool :=
  TERMINAL_ENTITY_TYPES.contains (r.classify address)

/-- Model of `FundingTransfer` (`profiler/models.py`); the best-effort block
timestamp is wall-clock metadata no claim mentions and is elided. -/
structure FundingTransfer where
  from_address : PyStr
  to_address : PyStr
  amount : Int
  token : PyStr
  tx_hash : PyStr
  block_number : Nat
  deriving DecidableEq

/-- Model of `FundingChain` (`profiler/models.py`); `traced_at` elided as above. -/
structure FundingChain where
  target_address : PyStr
  chain : List FundingTransfer
  origin_address : PyStr
  origin_type : String
  hop_count : Nat

/-- Model of `FundingTracer` (`profiler/funding.py`): the registry, the hop limit,
and `get_first_usdc_transfer` — whose blockchain log queries are
abstracted as a function from address to the earliest incoming USDC
transfer, `none` when there is none (or the query fails). -/
structure FundingTracer where
  entity_registry : EntityRegistry
  max_hops : Nat := 3
  get_first_usdc_transfer : PyStr → Option FundingTransfer

/-- The `for hop in range(effective_max_hops)` loop of
`FundingTracer.trace`, with the mutable `chain`/`current_address`/
`origin_address`/`origin_type` variables passed explicitly. -/
def traceLoop (tr : FundingTracer) :
    Nat → PyStr → PyStr → String → List FundingTransfer →
      List FundingTransfer × PyStr × String
  | 0, _, origin_address, origin_type, chain => (chain, origin_address, origin_type)
  | hops + 1, current_address, _, origin_type, chain =>
    if tr.entity_registry.is_terminal current_address then
      (chain, current_address, (tr.entity_registry.classify current_address).value)
    else
      match tr.get_first_usdc_transfer current_address with
      | none => (chain, current_address, origin_type)
      | some transfer =>
        let chain2 := chain ++ [transfer]
        let origin2 := transfer.from_address
        let current2 := transfer.from_address
        if tr.entity_registry.is_terminal origin2 then
          (chain2, origin2, (tr.entity_registry.classify origin2).value)
        else
          traceLoop tr hops current2 origin2 origin_type chain2

/-- Model of `FundingTracer.trace`: runs the loop from the lowercased target with
an empty chain and origin type `"unknown"`, then assembles the
`FundingChain` with `hop_count = len(chain)`. -/
def FundingTracer.trace (tr : FundingTracer) (address : PyStr)
    (max_hops : Option Nat := none) : FundingChain :=
  let effective_max_hops := max_hops.getD tr.max_hops
  let normalized_address := address.map Char.toLower
  let r := traceLoop tr effective_max_hops normalized_address normalized_address
    "unknown" []
  { target_address := normalized_address,
    chain := r.1,
    origin_address := r.2.1,
    origin_type := r.2.2,
    hop_count := r.1.length }

/-! ## Circuit breaker (`alerter/dispatcher.py`) -/

/-- Model of `CircuitBreakerState`; failure times are opaque instants. -/
structure CircuitBreakerState where
  failure_count : Nat := 0
  last_failure_time : Option Int := none
  is_open : Bool := false
  half_open_attempts : Nat := 0
  deriving DecidableEq

/-- Model of `AlertDispatcher._record_success` on one channel's state: full reset
to closed. -/
def recordSuccess (_ : CircuitBreakerState) : CircuitBreakerState :=
  { failure_count := 0, is_open := false, half_open_attempts := 0,
    last_failure_time := none }

/-- Model of `AlertDispatcher._record_failure` on one channel's state: increment
and stamp; while open count a half-open attempt, while closed open the
circuit once the count reaches the threshold. -/
def recordFailure (failure_threshold : Nat) (now : Int)
    (s : CircuitBreakerState) : CircuitBreakerState :=
  let s1 :=
    { s with
      failure_count := s.failure_count + 1
      last_failure_time := some now }
  if s1.is_open then
    { s1 with half_open_attempts := s1.half_open_attempts + 1 }
  else if s1.failure_count ≥ failure_threshold then
    { s1 with is_open := true }
  else s1


/-! ## Claim theorems -/

/-- C9: for every `TradeEvent` (side is BUY/SELL by type; the
timestamp is timezone-aware and satisfies the `datetime` constructor
bounds), deserializing the string-valued stream serialization returns a
`TradeEvent` equal to the original in every field, with the Decimal price
and size preserved exactly. -/
theorem C9_stream_serialization_roundtrip (now : PyDatetime) (e : TradeEvent)
    (h : e.timestamp.valid) :
    deserializeTradeEvent now (serializeTradeEvent e) = some e := by
  obtain ⟨mid, tid, wa, sd, oc, oi, pr, sz, ts, aid, ms, es, et, tn, tp⟩ := e
  have hts : PyDatetime.fromisoformat ts.isoformat = some ts :=
    PyDatetime.fromisoformat_isoformat ts h
  have hbuy : (['B', 'U', 'Y'] : PyStr).map Char.toUpper = ['B', 'U', 'Y'] := by
    decide
  have hsell : ¬((['S', 'E', 'L', 'L'] : PyStr).map Char.toUpper =
      ['B', 'U', 'Y']) := by decide
  cases sd <;>
    simp [serializeTradeEvent, deserializeTradeEvent, Side.str, hts,
      PyNum.parseInt_intToChars, Dec.parse_toStr, hbuy, hsell]

/-- Witness for C9: a concrete trade event with negative-offset timestamp,
microseconds, and exact decimal price/size survives the round trip. -/
theorem C9_stream_serialization_roundtrip_witness :
    deserializeTradeEvent ⟨2024, 5, 6, 7, 8, 9, 0, 0⟩
        (serializeTradeEvent
          { market_id := ['m'], trade_id := ['t'], wallet_address := ['w'],
            side := .buy, outcome := ['Y'], outcome_index := -1,
            price := ⟨false, 65, -2⟩, size := ⟨false, 1200, -1⟩,
            timestamp := ⟨2024, 1, 2, 3, 4, 5, 123456, -3600⟩,
            asset_id := ['a'], market_slug := [], event_slug := [],
            event_title := [], trader_name := [], trader_pseudonym := [] }) =
      some { market_id := ['m'], trade_id := ['t'], wallet_address := ['w'],
             side := .buy, outcome := ['Y'], outcome_index := -1,
             price := ⟨false, 65, -2⟩, size := ⟨false, 1200, -1⟩,
             timestamp := ⟨2024, 1, 2, 3, 4, 5, 123456, -3600⟩,
             asset_id := ['a'], market_slug := [], event_slug := [],
             event_title := [], trader_name := [], trader_pseudonym := [] } :=
  C9_stream_serialization_roundtrip ⟨2024, 5, 6, 7, 8, 9, 0, 0⟩ _ (by decide)

/-- C2, as stated, is false: `TradeEvent.from_websocket_message`
neither rejects nor sanitizes out-of-bounds payloads — a payload with
price 2.5 and size -5 yields a trade event with price 2.5 > 1 and size
-5 < 0. -/
theorem C2_price_bounds_counterexample :
    ((fromWebsocketMessage (fun _ => ⟨2024, 1, 1, 0, 0, 0, 0, 0⟩)
        ⟨2024, 1, 1, 0, 0, 0, 0, 0⟩
        { conditionId := [], transactionHash := [], proxyWallet := [],
          side := ['B', 'U', 'Y'], outcome := [], outcomeIndex := 0,
          price := ⟨false, 25, -1⟩, size := ⟨true, 5, 0⟩, timestamp := some 0,
          asset := [], slug := [], eventSlug := [], title := [], name := [],
          pseudonym := [] }).price.toRat > 1) ∧
    ((fromWebsocketMessage (fun _ => ⟨2024, 1, 1, 0, 0, 0, 0, 0⟩)
        ⟨2024, 1, 1, 0, 0, 0, 0, 0⟩
        { conditionId := [], transactionHash := [], proxyWallet := [],
          side := ['B', 'U', 'Y'], outcome := [], outcomeIndex := 0,
          price := ⟨false, 25, -1⟩, size := ⟨true, 5, 0⟩, timestamp := some 0,
          asset := [], slug := [], eventSlug := [], title := [], name := [],
          pseudonym := [] }).size.toRat < 0) := by
  constructor <;> norm_num [fromWebsocketMessage, Dec.toRat]

/-- C2 (amended): the parser copies the payload's price and size
verbatim — no rejection, no sanitization — so `0 ≤ price ≤ 1 ∧ size ≥ 0`
holds for the produced trade event exactly when the incoming payload
already satisfies those bounds. -/
theorem C2_parser_passthrough (fromtimestamp : Int → PyDatetime)
    (now : PyDatetime) (p : WsTradePayload) :
    (fromWebsocketMessage fromtimestamp now p).price = p.price ∧
    (fromWebsocketMessage fromtimestamp now p).size = p.size ∧
    ((0 ≤ (fromWebsocketMessage fromtimestamp now p).price.toRat ∧
        (fromWebsocketMessage fromtimestamp now p).price.toRat ≤ 1 ∧
        0 ≤ (fromWebsocketMessage fromtimestamp now p).size.toRat) ↔
      (0 ≤ p.price.toRat ∧ p.price.toRat ≤ 1 ∧ 0 ≤ p.size.toRat)) :=
  ⟨rfl, rfl, Iff.rfl⟩


/-- The count of triggered signals as §4.8 of the spec has it (spec-side
definition for C3). -/
def specSignalsTriggered (b : SignalBundle) : Nat :=
  (match b.fresh_wallet_signal with | some _ => 1 | none => 0) +
  (match b.size_anomaly_signal with | some _ => 1 | none => 0)

/-- The scoring formula exactly as the spec writes it (spec-side
definition for C3, to be compared with the source's
`calculate_weighted_score`): fresh confidence · 0.40 plus size confidence
· 0.35 plus, when the market is niche, size confidence · 0.25; ×1.3 for
≥3 signals else ×1.2 for ≥2; capped at `min(score, 1.0)`. -/
def specWeightedScore (b : SignalBundle) : ℚ :=
  let freshTerm : ℚ :=
    match b.fresh_wallet_signal with
    | some s => s.confidence * (40/100)
    | none => 0
  let sizeTerm : ℚ :=
    match b.size_anomaly_signal with
    | some s =>
      s.confidence * (35/100) +
        (if s.is_niche_market then s.confidence * (25/100) else 0)
    | none => 0
  let signals := specSignalsTriggered b
  let score := freshTerm + sizeTerm
  let score2 :=
    if signals ≥ 3 then score * (13/10)
    else if signals ≥ 2 then score * (12/10)
    else score
  min score2 1

/-- Under the default weights the source's `calculate_weighted_score`
agrees with the spec formula (shared by the C1 and C3 arguments). -/
theorem calculateWeightedScore_eq (sc : RiskScorer)
    (hw : sc.weights = DEFAULT_WEIGHTS) (b : SignalBundle) :
    sc.calculateWeightedScore b = (specWeightedScore b, specSignalsTriggered b) := by
  unfold RiskScorer.calculateWeightedScore specWeightedScore specSignalsTriggered
  rw [hw]
  rcases hbf : b.fresh_wallet_signal with _ | s1 <;>
    rcases hbs : b.size_anomaly_signal with _ | s2
  · simp [hbf, hbs]
  · rcases hn : s2.is_niche_market <;>
      simp [hbf, hbs, hn, DEFAULT_WEIGHTS, MULTI_SIGNAL_BONUS_2,
        MULTI_SIGNAL_BONUS_3, Prod.ext_iff]
  · simp [hbf, hbs, DEFAULT_WEIGHTS, MULTI_SIGNAL_BONUS_2, MULTI_SIGNAL_BONUS_3,
      Prod.ext_iff]
  · rcases hn : s2.is_niche_market <;>
      simp [hbf, hbs, hn, DEFAULT_WEIGHTS, MULTI_SIGNAL_BONUS_2,
        MULTI_SIGNAL_BONUS_3, Prod.ext_iff] <;>
      ring_nf

/-- Bounds of the spec formula with confidences in [0,1] (shared by the
C1 argument). -/
theorem specWeightedScore_bounds (b : SignalBundle)
    (hf : ∀ s, b.fresh_wallet_signal = some s → 0 ≤ s.confidence ∧ s.confidence ≤ 1)
    (hs : ∀ s, b.size_anomaly_signal = some s → 0 ≤ s.confidence ∧ s.confidence ≤ 1) :
    0 ≤ specWeightedScore b ∧ specWeightedScore b ≤ 1 := by
  unfold specWeightedScore specSignalsTriggered
  refine ⟨?_, ?_⟩
  case _ =>
    apply le_min _ (by norm_num)
    rcases hbf : b.fresh_wallet_signal with _ | s1 <;>
      rcases hbs : b.size_anomaly_signal with _ | s2 <;>
      simp only [hbf, hbs]
    · simp
    · have hc2 := hs s2 hbs
      rcases hn : s2.is_niche_market <;> simp [hn] <;> nlinarith [hc2.1, hc2.2]
    · have hc1 := hf s1 hbf
      simp
      nlinarith [hc1.1, hc1.2]
    · have hc1 := hf s1 hbf
      have hc2 := hs s2 hbs
      rcases hn : s2.is_niche_market <;> simp [hn] <;>
        nlinarith [hc1.1, hc1.2, hc2.1, hc2.2]
  case _ =>
    exact min_le_right _ _

/-- C1: under the default weights, every assessment of a bundle whose
signal confidences lie in [0,1] has `weighted_score ∈ [0,1]`; and
`should_alert = true` implies the score meets the alert threshold and the
wallet/market dedup key was absent from the store when assessed. -/
theorem C1_assessment_invariants (sc : RiskScorer)
    (hw : sc.weights = DEFAULT_WEIGHTS) (store : DedupStore) (b : SignalBundle)
    (hf : ∀ s, b.fresh_wallet_signal = some s → 0 ≤ s.confidence ∧ s.confidence ≤ 1)
    (hs : ∀ s, b.size_anomaly_signal = some s → 0 ≤ s.confidence ∧ s.confidence ≤ 1) :
    0 ≤ (sc.assess store b).1.weighted_score ∧
    (sc.assess store b).1.weighted_score ≤ 1 ∧
    ((sc.assess store b).1.should_alert = true →
      (sc.assess store b).1.weighted_score ≥ sc.alert_threshold ∧
      store (dedupKey b.wallet_address b.market_id) = false) := by
  have heq := calculateWeightedScore_eq sc hw b
  have hb := specWeightedScore_bounds b hf hs
  have hws : (sc.assess store b).1.weighted_score = (sc.calculateWeightedScore b).1 :=
    rfl
  refine ⟨?_, ?_, ?_⟩
  · rw [hws, heq]
    exact hb.1
  · rw [hws, heq]
    exact hb.2
  · intro halert
    simp only [RiskScorer.assess] at halert
    rcases hmeets : decide ((sc.calculateWeightedScore b).1 ≥ sc.alert_threshold) with _ | _
    · rw [hmeets] at halert
      simp at halert
    · rw [hmeets] at halert
      simp [checkAndSetDedup] at halert
      exact ⟨of_decide_eq_true hmeets, halert⟩

/-- C3: under the default weights, `calculate_weighted_score` computes
exactly the spec's formula (score and triggered-signal count), for every
bundle whose confidences lie in [0,1]. -/
theorem C3_weighted_score_formula (sc : RiskScorer)
    (hw : sc.weights = DEFAULT_WEIGHTS) (b : SignalBundle)
    (hf : ∀ s, b.fresh_wallet_signal = some s → 0 ≤ s.confidence ∧ s.confidence ≤ 1)
    (hs : ∀ s, b.size_anomaly_signal = some s → 0 ≤ s.confidence ∧ s.confidence ≤ 1) :
    sc.calculateWeightedScore b = (specWeightedScore b, specSignalsTriggered b) :=
  calculateWeightedScore_eq sc hw b


/-- C6: two assessments of the same wallet and market within the
dedup window (the pair unmarked when the window opens), both meeting the
alert threshold, produce exactly one alert — the first; the second
returns `should_alert = false`. -/
theorem C6_dedup_exactly_one (sc : RiskScorer) (store : DedupStore)
    (b1 b2 : SignalBundle)
    (hw : b2.wallet_address = b1.wallet_address)
    (hm : b2.market_id = b1.market_id)
    (hfresh : store (dedupKey b1.wallet_address b1.market_id) = false)
    (h1 : (sc.calculateWeightedScore b1).1 ≥ sc.alert_threshold)
    (h2 : (sc.calculateWeightedScore b2).1 ≥ sc.alert_threshold) :
    (sc.assess store b1).1.should_alert = true ∧
    (sc.assess (sc.assess store b1).2 b2).1.should_alert = false := by
  simp only [RiskScorer.assess, checkAndSetDedup]
  rw [decide_eq_true h1, decide_eq_true h2]
  simp [hfresh, hw, hm]

/-- C10: an assessment whose score is below the alert threshold never
touches the dedup store — the keyspace after the call is the one before
it and no alert fires — so it cannot suppress a later above-threshold
assessment of the same wallet/market pair, which still alerts. -/
theorem C10_below_threshold_frame (sc : RiskScorer) (store : DedupStore)
    (b b2 : SignalBundle)
    (hlow : (sc.calculateWeightedScore b).1 < sc.alert_threshold)
    (hw : b2.wallet_address = b.wallet_address)
    (hm : b2.market_id = b.market_id)
    (hfree : store (dedupKey b.wallet_address b.market_id) = false)
    (hhigh : (sc.calculateWeightedScore b2).1 ≥ sc.alert_threshold) :
    (sc.assess store b).2 = store ∧
    (sc.assess store b).1.should_alert = false ∧
    (sc.assess (sc.assess store b).2 b2).1.should_alert = true := by
  have hmeets : decide ((sc.calculateWeightedScore b).1 ≥ sc.alert_threshold) = false :=
    decide_eq_false (not_le.mpr hlow)
  simp only [RiskScorer.assess, checkAndSetDedup]
  rw [hmeets, decide_eq_true hhigh]
  simp [hw, hm, hfree]

/-- A concrete trade event shared by the scorer witnesses. -/
def wTrade : TradeEvent where
  market_id := ['m']
  trade_id := ['t']
  wallet_address := ['w']
  side := .buy
  outcome := []
  outcome_index := 0
  price := ⟨false, 5, -1⟩
  size := ⟨false, 10, 0⟩
  timestamp := ⟨2024, 1, 1, 0, 0, 0, 0, 0⟩
  asset_id := []
  market_slug := []
  event_slug := []
  event_title := []
  trader_name := []
  trader_pseudonym := []

/-- A bundle with both signals at full confidence on a niche market
(weighted score 1 under the default weights). -/
def wBundle : SignalBundle where
  trade_event := wTrade
  fresh_wallet_signal := some ⟨1⟩
  size_anomaly_signal := some ⟨0, 0, true, 1⟩

/-- A bundle with no signals (weighted score 0). -/
def wBundleLow : SignalBundle where
  trade_event := wTrade

/-- Witness for C1 at the default scorer, an empty store and the
full-confidence bundle. -/
theorem C1_assessment_invariants_witness :
    0 ≤ (({} : RiskScorer).assess (fun _ => false) wBundle).1.weighted_score ∧
    (({} : RiskScorer).assess (fun _ => false) wBundle).1.weighted_score ≤ 1 ∧
    ((({} : RiskScorer).assess (fun _ => false) wBundle).1.should_alert = true →
      (({} : RiskScorer).assess (fun _ => false) wBundle).1.weighted_score ≥
        ({} : RiskScorer).alert_threshold ∧
      (fun _ => false) (dedupKey wBundle.wallet_address wBundle.market_id) = false) :=
  C1_assessment_invariants {} rfl (fun _ => false) wBundle
    (by intro s hs; cases hs; norm_num) (by intro s hs; cases hs; norm_num)

/-- Witness for C3 at the default scorer and the full-confidence
bundle. -/
theorem C3_weighted_score_formula_witness :
    ({} : RiskScorer).calculateWeightedScore wBundle =
      (specWeightedScore wBundle, specSignalsTriggered wBundle) :=
  C3_weighted_score_formula {} rfl wBundle
    (by intro s hs; cases hs; norm_num) (by intro s hs; cases hs; norm_num)

/-- The full-confidence bundle scores exactly 1 with 2 triggered signals
(used to discharge the witnesses' threshold hypotheses, since kernel
reduction of Mathlib's ℚ instances is unavailable to `decide`). -/
theorem wBundle_score : ({} : RiskScorer).calculateWeightedScore wBundle = (1, 2) := by
  rw [calculateWeightedScore_eq {} rfl wBundle]
  norm_num [specWeightedScore, specSignalsTriggered, wBundle, min_def]

/-- The no-signal bundle scores 0. -/
theorem wBundleLow_score :
    ({} : RiskScorer).calculateWeightedScore wBundleLow = (0, 0) := by
  rw [calculateWeightedScore_eq {} rfl wBundleLow]
  norm_num [specWeightedScore, specSignalsTriggered, wBundleLow, min_def]

/-- Witness for C6: the same above-threshold bundle assessed twice against
an initially empty store alerts exactly once. -/
theorem C6_dedup_exactly_one_witness :
    (({} : RiskScorer).assess (fun _ => false) wBundle).1.should_alert = true ∧
    (({} : RiskScorer).assess
        (({} : RiskScorer).assess (fun _ => false) wBundle).2 wBundle).1.should_alert =
      false :=
  C6_dedup_exactly_one {} (fun _ => false) wBundle wBundle rfl rfl rfl
    (by rw [wBundle_score]; norm_num [DEFAULT_ALERT_THRESHOLD])
    (by rw [wBundle_score]; norm_num [DEFAULT_ALERT_THRESHOLD])

/-- Witness for C10: a no-signal assessment leaves the store unchanged and
a following full-confidence assessment of the same pair still alerts. -/
theorem C10_below_threshold_frame_witness :
    (({} : RiskScorer).assess (fun _ => false) wBundleLow).2 = (fun _ => false) ∧
    (({} : RiskScorer).assess (fun _ => false) wBundleLow).1.should_alert = false ∧
    (({} : RiskScorer).assess
        (({} : RiskScorer).assess (fun _ => false) wBundleLow).2 wBundle).1.should_alert =
      true :=
  C10_below_threshold_frame {} (fun _ => false) wBundleLow wBundle
    (by rw [wBundleLow_score]; norm_num [DEFAULT_ALERT_THRESHOLD]) rfl rfl rfl
    (by rw [wBundle_score]; norm_num [DEFAULT_ALERT_THRESHOLD])


/-- C4: `_is_wallet_fresh` holds iff the nonce is strictly below the
threshold and the age is unknown or at most 48 hours; a nonce exactly at
the threshold is never fresh, and threshold − 1 (age permitting) is
fresh. -/
theorem C4_freshness_rule (fresh_threshold nonce : Nat) (age_hours : Option ℚ) :
    (isWalletFresh fresh_threshold nonce age_hours = true ↔
      (nonce < fresh_threshold ∧
        (age_hours = none ∨ ∃ a, age_hours = some a ∧ a ≤ 48))) ∧
    isWalletFresh fresh_threshold fresh_threshold age_hours = false ∧
    (1 ≤ fresh_threshold →
      (age_hours = none ∨ ∃ a, age_hours = some a ∧ a ≤ 48) →
      isWalletFresh fresh_threshold (fresh_threshold - 1) age_hours = true) := by
  have key : ∀ m : Nat, isWalletFresh fresh_threshold m age_hours = true ↔
      (m < fresh_threshold ∧
        (age_hours = none ∨ ∃ a, age_hours = some a ∧ a ≤ 48)) := by
    intro m
    unfold isWalletFresh
    by_cases hm : m ≥ fresh_threshold
    · rw [if_pos hm]
      simp only [Bool.false_eq_true, false_iff]
      rintro ⟨h1, _⟩
      omega
    · rw [if_neg hm]
      rcases age_hours with _ | a
      · simp only [Bool.not_false, true_iff]
        exact ⟨by omega, Or.inl trivial⟩
      · simp only [Bool.not_eq_true', decide_eq_false_iff_not, not_lt]
        constructor
        · intro h48
          exact ⟨by omega, Or.inr ⟨a, rfl, h48⟩⟩
        · rintro ⟨-, h | ⟨x, hx, hxa⟩⟩
          · exact absurd h (by simp)
          · cases hx
            exact hxa
  refine ⟨key nonce, ?_, ?_⟩
  · rcases (key fresh_threshold) with ⟨h1, _⟩
    by_contra hcon
    have := h1 (by simpa using hcon)
    omega
  · intro hth hage
    exact (key (fresh_threshold - 1)).2 ⟨by omega, hage⟩

/-- Witness for C4 at threshold 5, nonce 2 and a 10-hour-old wallet. -/
theorem C4_freshness_rule_witness :
    (isWalletFresh 5 2 (some 10) = true ↔
      (2 < 5 ∧ ((some (10 : ℚ) = none) ∨ ∃ a, some (10 : ℚ) = some a ∧ a ≤ 48))) ∧
    isWalletFresh 5 5 (some 10) = false ∧
    isWalletFresh 5 4 (some 10) = true := by
  have h := C4_freshness_rule 5 2 (some 10)
  exact ⟨h.1, h.2.1, h.2.2 (by decide) (Or.inr ⟨10, rfl, by norm_num⟩)⟩

/-- C5, as stated, is false: with the default threshold 5 and nonce 2,
an age of exactly 48 hours is classified fresh by the code (the check is
`age_hours > 48`), contradicting the claim that 48 exactly is not
fresh. -/
theorem C5_age_boundary_counterexample :
    (2 < 5) ∧ isWalletFresh 5 2 (some 48) = true := by
  refine ⟨by decide, ?_⟩
  unfold isWalletFresh
  norm_num

/-- C5 (amended): for a below-threshold nonce, an age of exactly 48
hours still counts as fresh (the boundary test is `age_hours > 48`), and
47.99 hours is fresh as well; only ages strictly above 48 disqualify. -/
theorem C5_age_boundary (fresh_threshold nonce : Nat)
    (h : nonce < fresh_threshold) :
    isWalletFresh fresh_threshold nonce (some 48) = true ∧
    isWalletFresh fresh_threshold nonce (some (4799/100)) = true ∧
    isWalletFresh fresh_threshold nonce (some (4801/100)) = false := by
  unfold isWalletFresh
  simp only [if_neg (show ¬(nonce ≥ fresh_threshold) by omega)]
  refine ⟨?_, ?_, ?_⟩ <;>
    simp only [Bool.not_eq_true', Bool.not_eq_false', decide_eq_false_iff_not,
      decide_eq_true_eq, not_lt] <;>
    norm_num

/-- Witness for C5 (amended) at threshold 5, nonce 2. -/
theorem C5_age_boundary_witness :
    isWalletFresh 5 2 (some 48) = true ∧
    isWalletFresh 5 2 (some (4799/100)) = true ∧
    isWalletFresh 5 2 (some (4801/100)) = false :=
  C5_age_boundary 5 2 (by decide)


/-- A terminal classification is a CEX or bridge kind, whose `.value` is
never the string `"unknown"`. -/
theorem terminal_classify_value_ne_unknown (r : EntityRegistry) (a : PyStr)
    (h : r.is_terminal a = true) : ¬((r.classify a).value = "unknown") := by
  unfold EntityRegistry.is_terminal at h
  intro hval
  cases hcl : r.classify a <;> rw [hcl] at h hval <;> revert h hval <;> decide

/-- Loop invariant of `FundingTracer.trace`: starting from `current` with
origin type `"unknown"`, the loop grows the chain by at most its
remaining hop budget, keeps the origin address equal to the last
transfer's sender, and reports `"unknown"` only for a non-terminal
origin. -/
theorem traceLoop_spec (tr : FundingTracer) (k : Nat) (current : PyStr)
    (chain : List FundingTransfer)
    (hlast : ∀ h : chain ≠ [], (chain.getLast h).from_address = current)
    (hk0 : k = 0 → tr.entity_registry.is_terminal current = false) :
    (traceLoop tr k current current "unknown" chain).1.length ≤ chain.length + k ∧
    (∀ h : (traceLoop tr k current current "unknown" chain).1 ≠ [],
      ((traceLoop tr k current current "unknown" chain).1.getLast h).from_address =
        (traceLoop tr k current current "unknown" chain).2.1) ∧
    ((traceLoop tr k current current "unknown" chain).2.2 = "unknown" →
      tr.entity_registry.is_terminal
        (traceLoop tr k current current "unknown" chain).2.1 = false) := by
  induction k generalizing current chain with
  | zero =>
    refine ⟨by simp [traceLoop], ?_, ?_⟩
    · intro h
      exact hlast h
    · intro _
      exact hk0 rfl
  | succ k ih =>
    by_cases ht : tr.entity_registry.is_terminal current = true
    · have hred : traceLoop tr (k + 1) current current "unknown" chain =
          (chain, current, (tr.entity_registry.classify current).value) := by
        simp [traceLoop, ht]
      rw [hred]
      refine ⟨by simp, hlast, ?_⟩
      intro hval
      exact absurd hval (terminal_classify_value_ne_unknown tr.entity_registry current ht)
    · cases ftr : tr.get_first_usdc_transfer current with
      | none =>
        have hred : traceLoop tr (k + 1) current current "unknown" chain =
            (chain, current, "unknown") := by
          simp [traceLoop, ht, ftr]
        rw [hred]
        refine ⟨by simp, hlast, ?_⟩
        intro _
        simpa using ht
      | some t =>
        by_cases htt : tr.entity_registry.is_terminal t.from_address = true
        · have hred : traceLoop tr (k + 1) current current "unknown" chain =
              (chain ++ [t], t.from_address,
                (tr.entity_registry.classify t.from_address).value) := by
            simp [traceLoop, ht, ftr, htt]
          rw [hred]
          refine ⟨by simp, ?_, ?_⟩
          · intro h
            exact congrArg FundingTransfer.from_address (List.getLast_concat _)
          · intro hval
            exact absurd hval
              (terminal_classify_value_ne_unknown tr.entity_registry t.from_address htt)
        · have hred : traceLoop tr (k + 1) current current "unknown" chain =
              traceLoop tr k t.from_address t.from_address "unknown" (chain ++ [t]) := by
            simp [traceLoop, ht, ftr, htt]
          rw [hred]
          have hlast2 : ∀ h : (chain ++ [t]) ≠ [],
              ((chain ++ [t]).getLast h).from_address = t.from_address := by
            intro h
            exact congrArg FundingTransfer.from_address (List.getLast_concat _)
          have hk02 : k = 0 → tr.entity_registry.is_terminal t.from_address = false := by
            intro _
            simpa using htt
          obtain ⟨ha, hb, hc⟩ := ih t.from_address (chain ++ [t]) hlast2 hk02
          refine ⟨?_, hb, hc⟩
          have hlen : (chain ++ [t]).length = chain.length + 1 := by simp
          omega

/-- C7: every funding trace with `max_hops ≥ 1` yields a chain whose
`hop_count` is at most `max_hops`; when the chain is non-empty the last
transfer's sender is the reported `origin_address`; and an `"unknown"`
origin type means the final origin address is not a terminal entity in
the registry. -/
theorem C7_funding_trace_invariants (tr : FundingTracer) (address : PyStr)
    (mh : Option Nat) (hmh : 1 ≤ mh.getD tr.max_hops) :
    (tr.trace address mh).hop_count ≤ mh.getD tr.max_hops ∧
    (∀ h : (tr.trace address mh).chain ≠ [],
      ((tr.trace address mh).chain.getLast h).from_address =
        (tr.trace address mh).origin_address) ∧
    ((tr.trace address mh).origin_type = "unknown" →
      tr.entity_registry.is_terminal (tr.trace address mh).origin_address = false) := by
  unfold FundingTracer.trace
  have hspec := traceLoop_spec tr (mh.getD tr.max_hops) (address.map Char.toLower) []
    (by intro h; exact absurd rfl h) (by intro h0; omega)
  exact ⟨by simpa using hspec.1, hspec.2.1, hspec.2.2⟩


/-- A two-entry world for the C7 witness: wallet `w` funded directly from
the known Binance hot wallet `c`. -/
def wRegistry : EntityRegistry :=
  ⟨fun a => if a = ['c'] then some .cex_binance else none⟩

/-- The C7 witness tracer over `wRegistry`. -/
def wTracer : FundingTracer where
  entity_registry := wRegistry
  max_hops := 3
  get_first_usdc_transfer := fun a =>
    if a = ['w'] then some ⟨['c'], ['w'], 100, ['U'], ['h'], 1⟩ else none

/-- Witness for C7: the one-hop trace of `w` stays within the hop budget
and ends at the terminal sender `c`. -/
theorem C7_funding_trace_invariants_witness :
    (wTracer.trace ['w'] none).hop_count ≤ (none : Option Nat).getD wTracer.max_hops ∧
    ((wTracer.trace ['w'] none).chain.getLast (by decide)).from_address =
      (wTracer.trace ['w'] none).origin_address :=
  ⟨(C7_funding_trace_invariants wTracer ['w'] none (by decide)).1,
   (C7_funding_trace_invariants wTracer ['w'] none (by decide)).2.1 (by decide)⟩

/-- C8: recording a success resets a channel's circuit to closed with
the failure count, half-open attempts and failure timestamp cleared; and
recording a failure transitions the circuit from closed to open exactly
when the incremented consecutive-failure count reaches the threshold. -/
theorem C8_circuit_breaker (failure_threshold : Nat) (now : Int)
    (s : CircuitBreakerState) :
    (recordSuccess s).is_open = false ∧
    (recordSuccess s).failure_count = 0 ∧
    (recordSuccess s).half_open_attempts = 0 ∧
    (recordSuccess s).last_failure_time = none ∧
    ((s.is_open = false ∧
        (recordFailure failure_threshold now s).is_open = true) ↔
      (s.is_open = false ∧ s.failure_count + 1 ≥ failure_threshold)) := by
  refine ⟨rfl, rfl, rfl, rfl, ?_⟩
  unfold recordFailure
  rcases ho : s.is_open
  · by_cases hth : s.failure_count + 1 ≥ failure_threshold <;> simp [ho, hth]
  · simp [ho]
